import Mathlib

/-!
Verification development for the `replay` interactive regex-testing tool.

The definitions below are a shallow embedding of the Rust sources:
  - `src/lib.rs` (interval layering, bracket-depth coloring, error rendering),
  - `src/regex.rs` (the two-level match cache),
  - `src/highlight.rs` (the highlight event materializer),
  - `src/render.rs` (per-character color sampling for the pattern field),
  - `src/input.rs` (the text field editor).
Terminal writes are modelled as emitted instruction lists; machine integers
(`usize`) are modelled as `Nat` (Rust `saturating_sub` coincides with `Nat`
subtraction); fallible operations (slice indexing that may panic) return
`Option`.
-/

namespace Replay

/-- The subset of `crossterm::style::Color` used by the program. -/
inductive Color where
  | Reset
  | Grey
  | Green
  | Yellow
  | Blue
  | Magenta
  | Cyan
  | DarkMagenta
  | DarkBlue
  | DarkYellow
  | Black
  | DarkRed
  | DarkGrey
  deriving DecidableEq, Repr

/-- `LAYER_COLORS` from `src/lib.rs`: the fixed 6-entry layer color table. -/
def LAYER_COLORS : List Color :=
  [Color.Grey, Color.Green, Color.Yellow, Color.Blue, Color.Magenta, Color.Cyan]

/-! ## Interval Layering Engine (`draw_match` in `src/lib.rs`) -/

/-- The pop loop of `draw_match`:
`while layers.last().is_some_and(|l| *l <= start) { layers.pop(); }`.
The stack is a `List Nat` whose head is the top (most recently pushed end offset). -/
def popClosed (start : Nat) : List Nat → List Nat
  | [] => []
  | l :: rest => if l ≤ start then popClosed start rest else l :: rest

/-- The layer assignment loop of `draw_match`, keeping only the assigned layers:
for each span, pop the closed end offsets, push the span's end, and record
`stack.len() - 1`. -/
def draw_match_layers_aux (stack : List Nat) : List (Nat × Nat) → List Nat
  | [] => []
  | (s, e) :: rest =>
      ((e :: popClosed s stack).length - 1)
        :: draw_match_layers_aux (e :: popClosed s stack) rest

/-- Layers assigned by `draw_match` to one capture list, starting from an empty stack. -/
def draw_match_layers (cap : List (Nat × Nat)) : List Nat :=
  draw_match_layers_aux [] cap

/-! ## Render instructions

Every terminal write the renderer performs is a `print_at(color, text, col, row)`
(`MoveTo` followed by `SetForegroundColor` and `Print`); we record those writes
as a list of instructions. -/

/-- One terminal write emitted by the renderer. -/
inductive Instr where
  | printAt (color : Color) (text : String) (col row : Nat)
  deriving DecidableEq, Repr

/-- The line loop of `draw_error` in `src/lib.rs`:
`for (i, line) in err.lines().enumerate() { print_at(w, Reset, line, col, row + 1 + i) }`,
written with the running row made explicit. The error text is taken already
split into its lines. -/
def draw_error_lines (col : Nat) : Nat → List String → List Instr
  | _, [] => []
  | row, line :: rest =>
      Instr.printAt Color.Reset line col row :: draw_error_lines col (row + 1) rest

/-- `draw_error` from `src/lib.rs`: a dark-red "ERROR:" label at the origin,
then each line of the error message on the following rows. -/
def draw_error (errLines : List String) (col row : Nat) : List Instr :=
  Instr.printAt Color.DarkRed "ERROR:" col row :: draw_error_lines col (row + 1) errLines

/-- The slice `&hay[start..end]` taken at character granularity. -/
def sliceOf (hay : String) (s e : Nat) : String :=
  String.mk ((hay.data.drop s).take (e - s))

/-- `draw_match` from `src/lib.rs`: walks the capture list with the layering
stack, printing every span's substring in its layer color and collecting
`(start, end, layer)` infos plus the running maximum layer.
`LAYER_COLORS[layers.len() - 1]` is a fallible index (the Rust code panics out
of bounds), hence the `Option`. -/
def draw_match_aux (hay : String) (col row : Nat) :
    List Nat → List (Nat × Nat) → Option (List Instr × List (Nat × Nat × Nat) × Nat)
  | _, [] => some ([], [], 0)
  | stack, (s, e) :: rest =>
      let stack2 := e :: popClosed s stack
      let layer := stack2.length - 1
      match LAYER_COLORS.get? layer with
      | none => none
      | some color =>
          match draw_match_aux hay col row stack2 rest with
          | none => none
          | some (instrs, infos, maxRest) =>
              some (Instr.printAt color (sliceOf hay s e) (col + s) row :: instrs,
                    (s, e, layer) :: infos,
                    max layer maxRest)

/-- `draw_match` on one capture list, starting from an empty stack. -/
def draw_match (hay : String) (cap : List (Nat × Nat)) (col row : Nat) :
    Option (List Instr × List (Nat × Nat × Nat) × Nat) :=
  draw_match_aux hay col row [] cap

/-- `draw_groups` from `src/lib.rs`: beneath each span, a run of tildes from
`start` to `end - 1`, a bar at `end - 1`, connector bars down to row
`max_layer + 1`, and the numeric layer label at row `max_layer + 2`. The layer
color lookup is the same fallible table index as in `draw_match`. -/
def draw_groups (col row maxLayer : Nat) : List (Nat × Nat × Nat) → Option (List Instr)
  | [] => some []
  | (s, e, layer) :: rest =>
      match LAYER_COLORS.get? layer with
      | none => none
      | some color =>
          match draw_groups col row maxLayer rest with
          | none => none
          | some instrs =>
              some (((List.range' s ((e - 1) - s)).map
                      (fun idx => Instr.printAt color "~" (col + idx) (row + layer + 1)))
                    ++ [Instr.printAt color "|" (col + (e - 1)) (row + layer + 1)]
                    ++ ((List.range' (layer + 1) ((maxLayer + 1 + 1) - (layer + 1))).map
                      (fun line => Instr.printAt color "|" (col + s) (row + line)))
                    ++ [Instr.printAt color (toString layer) (col + s) (row + maxLayer + 2)]
                    ++ instrs)

/-- The per-capture-list loop of `draw_hay`: `draw_match` then `draw_groups`
for each capture list in turn. -/
def draw_caps (hay : String) (col row : Nat) : List (List (Nat × Nat)) → Option (List Instr)
  | [] => some []
  | cap :: caps =>
      match draw_match hay cap col row with
      | none => none
      | some (instrs, infos, maxLayer) =>
          match draw_groups col row maxLayer infos with
          | none => none
          | some groupInstrs =>
              match draw_caps hay col row caps with
              | none => none
              | some restInstrs => some (instrs ++ groupInstrs ++ restInstrs)

/-- `draw_hay` from `src/lib.rs`, taking the match cache's answer as input: on a
compile error it renders only the error block; otherwise it prints the haystack
in the reset color and then every capture list's spans and connector glyphs. -/
def draw_hay (hay : String) (res : Except (List String) (List (List (Nat × Nat))))
    (col row : Nat) : Option (List Instr) :=
  match res with
  | .error errLines => some (draw_error errLines col row)
  | .ok caps =>
      match draw_caps hay col row caps with
      | none => none
      | some instrs => some (Instr.printAt Color.Reset hay col row :: instrs)

/-! ## Bracket-depth colorer (`draw_re` in `src/lib.rs`) -/

/-- The color-table indices used by `draw_re` while scanning the pattern:
a `(` first increments the running layer and indexes at the new value, a `)`
indexes at the current value and then decrements with saturation, any other
character uses no table index. -/
def indicesUsed (layer : Nat) : List Char → List Nat
  | [] => []
  | ch :: rest =>
      if ch = '(' then (layer + 1) :: indicesUsed (layer + 1) rest
      else if ch = ')' then layer :: indicesUsed (layer - 1) rest
      else indicesUsed layer rest

/-- `draw_re` from `src/lib.rs`, keeping the per-character colors: `(` bumps the
layer and colors with `LAYER_COLORS[layer]`, `)` colors with the current layer
and then saturating-decrements, everything else is the reset color. The table
index is fallible (the Rust code panics out of bounds), hence the `Option`. -/
def draw_re_colors (layer : Nat) : List Char → Option (List Color)
  | [] => some []
  | ch :: rest =>
      if ch = '(' then
        match LAYER_COLORS.get? (layer + 1) with
        | none => none
        | some c => (draw_re_colors (layer + 1) rest).map (c :: ·)
      else if ch = ')' then
        match LAYER_COLORS.get? layer with
        | none => none
        | some c => (draw_re_colors (layer - 1) rest).map (c :: ·)
      else (draw_re_colors layer rest).map (Color.Reset :: ·)

/-! ## Highlight Materializer (`src/highlight.rs`) -/

/-- `HighlightGroup` from `src/highlight.rs`; declaration order is the priority
when several groups are active (derived `Ord`, smaller = higher priority). -/
inductive HighlightGroup where
  | Flags
  | Anchors
  | Quantifiers
  | CharacterClass
  | Operator
  | Escape
  | Group
  deriving DecidableEq, Repr

/-- The rank induced by the declaration order of `HighlightGroup` (the derived
`Ord` instance the Rust code compares with). -/
def HighlightGroup.rank : HighlightGroup → Nat
  | .Flags => 0
  | .Anchors => 1
  | .Quantifiers => 2
  | .CharacterClass => 3
  | .Operator => 4
  | .Escape => 5
  | .Group => 6

/-- The color column of the `HighlightGroup::all()` table in `src/highlight.rs`. -/
def HighlightGroup.color : HighlightGroup → Color
  | .Flags => Color.Blue
  | .Anchors => Color.Magenta
  | .Quantifiers => Color.DarkMagenta
  | .CharacterClass => Color.DarkBlue
  | .Operator => Color.DarkYellow
  | .Escape => Color.Black
  | .Group => Color.Black

/-- `tree_sitter_highlight::HighlightEvent`. A start event carries the group it
resolves to through the `HighlightGroup::all()` table; a source event carries
the range end (the only field the wrapper reads). -/
inductive HighlightEvent where
  | highlightStart (g : HighlightGroup)
  | source (rangeEnd : Nat)
  | highlightEnd
  deriving DecidableEq, Repr

/-- `self.stack.iter().min()` with the derived `Ord`: the first element of
minimal rank, or `none` on an empty stack. -/
def stackMin : List HighlightGroup → Option HighlightGroup
  | [] => none
  | g :: rest =>
      match stackMin rest with
      | none => some g
      | some m => some (if g.rank ≤ m.rank then g else m)

/-- `HighlightEventWrapper` from `src/highlight.rs`: the buffered event list,
the next unemitted byte position, the end of the buffered source range, and the
stack of open groups (`Vec` order: last element is the top). -/
structure HighlightEventWrapper where
  iter : List HighlightEvent
  pos : Nat
  limit : Nat
  stack : List HighlightGroup
  deriving DecidableEq, Repr

/-- The `Default` wrapper (`unwrap_or_default` fallback): no events, empty
stack, `pos = limit = 0`. -/
def HighlightEventWrapper.deflt : HighlightEventWrapper :=
  { iter := [], pos := 0, limit := 0, stack := [] }

/-- `Iterator::next` of `HighlightEventWrapper`, with the event list as the
recursion argument: while `pos < limit` emit the minimum open group's color
(reset if none); otherwise consume one event (push on start, set the limit on
source, pop on end) and retry; with no events left, the sequence ends. -/
def nextAux (pos limit : Nat) (stack : List HighlightGroup) :
    List HighlightEvent → Option (Color × HighlightEventWrapper)
  | [] =>
      if pos < limit then
        some (((stackMin stack).map HighlightGroup.color).getD Color.Reset,
              { iter := [], pos := pos + 1, limit := limit, stack := stack })
      else none
  | ev :: rest =>
      if pos < limit then
        some (((stackMin stack).map HighlightGroup.color).getD Color.Reset,
              { iter := ev :: rest, pos := pos + 1, limit := limit, stack := stack })
      else
        match ev with
        | .highlightStart g => nextAux pos limit (stack ++ [g]) rest
        | .source rangeEnd => nextAux pos rangeEnd stack rest
        | .highlightEnd => nextAux pos limit stack.dropLast rest

/-- `Iterator::next` on the wrapper state. -/
def HighlightEventWrapper.next (w : HighlightEventWrapper) :
    Option (Color × HighlightEventWrapper) :=
  nextAux w.pos w.limit w.stack w.iter

/-! ## Pattern-field color sampling (`draw_regex_query` in `src/render.rs`)

The materializer's per-byte output is a color sequence; for each character the
renderer does `take(ch.len_utf8()).last().unwrap_or(Color::Reset)` on it. We
model the sequence as the list of colors it yields and the loop over the
characters by the list of their `len_utf8` values. -/

/-- The per-character syntax colors of `draw_regex_query`: for each character
width `n`, take `n` colors from the remaining sequence and keep the last,
falling back to the reset color when none were available. -/
def sample_query_colors (colors : List Color) : List Nat → List Color
  | [] => []
  | n :: rest =>
      ((colors.take n).getLast?.getD Color.Reset)
        :: sample_query_colors (colors.drop n) rest

/-- Modelled from the spec: the color of the last byte of the character whose
byte span starts at `off` and is `n` bytes wide. -/
def lastByteColor (colors : List Color) (off n : Nat) : Color :=
  (colors.get? (off + n - 1)).getD Color.Reset

/-- Modelled from the spec: sample, for each character width in turn, the last
byte-level color within that character's byte span. -/
def spec_sample (colors : List Color) : Nat → List Nat → List Color
  | _, [] => []
  | off, n :: rest => lastByteColor colors off n :: spec_sample colors (off + n) rest

/-! ## Match Cache (`src/regex.rs`)

`HashMap`s are modelled as association lists (`alookup` finds the first entry
with the key, `updateKey` replaces its value). The external regex engine enters
as two parameters: `compile` (the outcome of `Regex::new`) and `capturesOf`
(the capture lists `captures_iter` collects for a pattern and haystack — the
compiled `Regex` is determined by its pattern string). The `compiled` and
`matched` flags record whether this call ran `Regex::new` resp. the match
engine. -/

/-- Association-list lookup (first entry with the key wins). -/
def alookup {β : Type} : List (String × β) → String → Option β
  | [], _ => none
  | (k, v) :: rest, key => if k = key then some v else alookup rest key

/-- Replace the value of the first entry with the given key. -/
def updateKey {β : Type} (key : String) (v : β) : List (String × β) → List (String × β)
  | [] => []
  | (k, w) :: rest => if k = key then (k, v) :: rest else (k, w) :: updateKey key v rest

/-- One capture list: the spans of one match and its groups. -/
abbrev CapList := List (Nat × Nat)

/-- `CapturesCache` from `src/regex.rs`: haystack string to capture lists. -/
abbrev CapturesCache := List (String × List CapList)

/-- `Cache` from `src/regex.rs`: pattern string to compile error or the
per-haystack captures cache of the compiled pattern. -/
abbrev Cache (Err : Type) := List (String × Except Err CapturesCache)

/-- What one `Cache::get_or_init` call produced: the returned result, the cache
afterwards, and whether `Regex::new` resp. `captures_iter` actually ran. -/
structure LookupResult (Err : Type) where
  result : Except Err (List CapList)
  cache : Cache Err
  compiled : Bool
  matched : Bool

/-- `Cache::get_or_init` from `src/regex.rs` (with the inner
`CapturesCache::get_or_init` inlined): a fresh pattern is compiled and its
outcome stored; a cached error is returned as-is; an existing pattern entry
reuses the stored capture lists for a seen haystack and otherwise runs the
match engine once and stores its result. -/
def Cache.get_or_init {Err : Type} (compile : String → Except Err Unit)
    (capturesOf : String → String → List CapList)
    (c : Cache Err) (re hay : String) : LookupResult Err :=
  match alookup c re with
  | none =>
      match compile re with
      | .error err =>
          { result := .error err, cache := (re, .error err) :: c,
            compiled := true, matched := false }
      | .ok _ =>
          let caps := capturesOf re hay
          { result := .ok caps, cache := (re, .ok [(hay, caps)]) :: c,
            compiled := true, matched := true }
  | some (.error err) =>
      { result := .error err, cache := c, compiled := false, matched := false }
  | some (.ok inner) =>
      match alookup inner hay with
      | some caps =>
          { result := .ok caps, cache := c, compiled := false, matched := false }
      | none =>
          let caps := capturesOf re hay
          { result := .ok caps, cache := updateKey re (.ok ((hay, caps) :: inner)) c,
            compiled := false, matched := true }

/-- The capture lists the cache currently stores for a pattern and haystack. -/
def cachedCaps {Err : Type} (c : Cache Err) (re hay : String) : Option (List CapList) :=
  match alookup c re with
  | some (.ok inner) => alookup inner hay
  | _ => none

/-- The compile error the cache currently stores for a pattern. -/
def cachedError {Err : Type} (c : Cache Err) (re : String) : Option Err :=
  match alookup c re with
  | some (.error err) => some err
  | _ => none

/-! ## Text field editor (`src/input.rs`) -/

/-- `Change` from `src/lib.rs`: which aspects of the screen a key press dirtied. -/
structure Change where
  content : Bool
  cursor : Bool
  deriving DecidableEq, Repr

/-- `Change::new()`: nothing changed. -/
def Change.new : Change := { content := false, cursor := false }

/-- `Change::content()`: mark the content changed. -/
def Change.withContent (c : Change) : Change := { c with content := true }

/-- `Change::cursor()`: mark the cursor changed. -/
def Change.withCursor (c : Change) : Change := { c with cursor := true }

/-- `Input` from `src/input.rs`: the edited text (as its characters, matching
the char-oriented operations) and the cursor's character position. -/
structure Input where
  string : List Char
  cursor : Nat
  deriving DecidableEq, Repr

/-- `Input::clamp_cursor`: clamp a candidate position to the character count. -/
def Input.clamp_cursor (i : Input) (pos : Nat) : Nat :=
  min pos i.string.length

/-- `Input::move_cursor_left`: saturating decrement, clamped. -/
def Input.move_cursor_left (i : Input) : Input × Change :=
  ({ i with cursor := i.clamp_cursor (i.cursor - 1) }, Change.new.withCursor)

/-- `Input::delete_char` from `src/input.rs`: with the cursor past the start,
drop the character before the cursor (`chars().take(cursor - 1)` chained with
`chars().skip(cursor)`), move the cursor left, and report content and cursor
changes; at position 0 do nothing and report no change. -/
def Input.delete_char (i : Input) : Input × Change :=
  if i.cursor > 0 then
    let i1 : Input := { i with string := i.string.take (i.cursor - 1) ++ i.string.drop i.cursor }
    ((i1.move_cursor_left).1, (Change.new.withContent).withCursor)
  else
    (i, Change.new)

end Replay

namespace Replay

/-! ## Helper lemmas -/

lemma LAYER_COLORS_length : LAYER_COLORS.length = 6 := by decide

lemma LAYER_COLORS_get?_isSome (n : Nat) (h : n < 6) :
    ∃ c, LAYER_COLORS.get? n = some c :=
  ⟨_, List.get?_eq_get (by simpa [LAYER_COLORS_length] using h)⟩

lemma LAYER_COLORS_getElem?_isSome (n : Nat) (h : n < 6) :
    ∃ c, LAYER_COLORS[n]? = some c := by
  obtain ⟨c, hc⟩ := LAYER_COLORS_get?_isSome n h
  exact ⟨c, by rwa [List.get?_eq_getElem?] at hc⟩

lemma popClosed_eq_dropWhile (s : Nat) (stack : List Nat) :
    popClosed s stack = stack.dropWhile (fun l => decide (l ≤ s)) := by
  induction stack with
  | nil => rfl
  | cons l rest ih =>
      by_cases h : l ≤ s <;> simp [popClosed, List.dropWhile, h, ih]

/-! ## C1 -/

/-- C1: the Interval Layering Engine processes each capture list in order with a
stack of pending end offsets: at each span `(s, e)` it pops exactly the top run
of entries that are `≤ s` (an entry stays exactly when it is `> s`), pushes
`e`, and assigns the layer `stack.length - 1`; the first span of a capture list
always gets layer 0. -/
theorem interval_layering_stack_step :
    (∀ s stack, popClosed s stack = stack.dropWhile (fun l => decide (l ≤ s)))
    ∧ (∀ stack s e rest,
        draw_match_layers_aux stack ((s, e) :: rest) =
          ((e :: stack.dropWhile (fun l => decide (l ≤ s))).length - 1)
            :: draw_match_layers_aux (e :: stack.dropWhile (fun l => decide (l ≤ s))) rest)
    ∧ (∀ s e rest, (draw_match_layers ((s, e) :: rest)).head? = some 0) := by
  refine ⟨popClosed_eq_dropWhile, ?_, ?_⟩
  · intro stack s e rest
    simp [draw_match_layers_aux, popClosed_eq_dropWhile]
  · intro s e rest
    simp [draw_match_layers, draw_match_layers_aux, popClosed]

/-! ## C6 -/

lemma draw_match_layers_aux_singleton (cap : List (Nat × Nat)) (e : Nat)
    (hchain : List.Chain' (fun a b : Nat × Nat => a.2 ≤ b.1) cap)
    (hhead : ∀ p ∈ cap.head?, e ≤ p.1) :
    ∀ l ∈ draw_match_layers_aux [e] cap, l = 0 := by
  induction cap generalizing e with
  | nil => simp [draw_match_layers_aux]
  | cons p rest ih =>
      obtain ⟨s, e1⟩ := p
      have he : e ≤ s := hhead (s, e1) (by simp)
      rw [List.chain'_cons'] at hchain
      intro l hl
      rw [draw_match_layers_aux] at hl
      simp only [popClosed, if_pos he] at hl
      rcases List.mem_cons.mp hl with h0 | hmem
      · simp [h0]
      · exact ih e1 hchain.2 hchain.1 l hmem

/-- C6: for a capture list whose spans are pairwise non-overlapping in the
engine's sense (each earlier span's end offset is at most each later span's
start offset, which also makes the starts non-decreasing), every span is
assigned layer 0. -/
theorem nonoverlapping_spans_layer_zero (cap : List (Nat × Nat))
    (h : List.Pairwise (fun a b : Nat × Nat => a.2 ≤ b.1) cap) :
    ∀ l ∈ draw_match_layers cap, l = 0 := by
  have hchain := h.chain'
  cases cap with
  | nil => simp [draw_match_layers, draw_match_layers_aux]
  | cons p rest =>
      obtain ⟨s, e⟩ := p
      rw [List.chain'_cons'] at hchain
      intro l hl
      rw [draw_match_layers, draw_match_layers_aux] at hl
      simp only [popClosed] at hl
      rcases List.mem_cons.mp hl with h0 | hmem
      · simp [h0]
      · exact draw_match_layers_aux_singleton rest e hchain.2 hchain.1 l hmem

/-- Witness for C6 at the concrete list [(0,2), (2,5), (6,7)]: its first
assigned layer is 0. -/
theorem nonoverlapping_spans_layer_zero_witness :
    (draw_match_layers [(0, 2), (2, 5), (6, 7)]).headI = 0 :=
  nonoverlapping_spans_layer_zero [(0, 2), (2, 5), (6, 7)] (by decide)
    ((draw_match_layers [(0, 2), (2, 5), (6, 7)]).headI) (by decide)

/-! ## C3 -/

/-- C3 counterexample: the pattern `((((((` drives the running layer to 6 on
its sixth opening parenthesis and indexes the 6-entry color table out of
bounds, so the bracket-depth colorer does panic on this unbalanced pattern. -/
theorem draw_re_deep_parens_out_of_range :
    draw_re_colors 0 "((((((".toList = none := by decide

lemma draw_re_colors_isSome (pat : List Char) (layer : Nat)
    (h : ∀ d ∈ indicesUsed layer pat, d ≤ 5) :
    (draw_re_colors layer pat).isSome := by
  induction pat generalizing layer with
  | nil => simp [draw_re_colors]
  | cons ch rest ih =>
      by_cases h1 : ch = '('
      · have hd : layer + 1 ≤ 5 := h _ (by simp [indicesUsed, h1])
        obtain ⟨c, hc⟩ := LAYER_COLORS_getElem?_isSome (layer + 1) (by omega)
        have hrest := ih (layer + 1) (fun d hd' => h d (by simp [indicesUsed, h1, hd']))
        rw [draw_re_colors]
        simp [h1, hc, hrest]
      · by_cases h2 : ch = ')'
        · have hd : layer ≤ 5 := h _ (by simp [indicesUsed, h1, h2])
          obtain ⟨c, hc⟩ := LAYER_COLORS_getElem?_isSome layer (by omega)
          have hrest := ih (layer - 1) (fun d hd' => h d (by simp [indicesUsed, h1, h2, hd']))
          rw [draw_re_colors]
          simp [h1, h2, hc, hrest]
        · have hrest := ih layer (fun d hd' => h d (by simp [indicesUsed, h1, h2, hd']))
          rw [draw_re_colors]
          simp [h1, h2, hrest]

/-- C3 amended: the layer counter saturates at 0 on `)` (so unbalanced closing
parentheses never underflow), but `(` pre-increments the counter and indexes
at the incremented value, so the colorer stays within the table's bounds
exactly for patterns whose table indices stay at most 5: for every pattern
whose running parenthesis indices are all at most 5, the colorer produces a
color for every character without any out-of-range index. -/
theorem draw_re_colors_safe (pat : List Char)
    (h : ∀ d ∈ indicesUsed 0 pat, d ≤ 5) :
    (draw_re_colors 0 pat).isSome :=
  draw_re_colors_isSome pat 0 h

/-- Witness for the amended C3 at the unbalanced pattern `(a))b)`. -/
theorem draw_re_colors_safe_witness :
    (draw_re_colors 0 "(a))b)".toList).isSome :=
  draw_re_colors_safe "(a))b)".toList (by decide)

/-! ## C2 -/

/-- C2 counterexample: a capture list of seven strictly nested spans keeps all
seven open, assigns layer 6 to the innermost span, and the color lookup
`LAYER_COLORS[6]` on the 6-entry table is out of bounds, so `draw_match` does
fail on this input instead of clamping or cycling. -/
theorem draw_match_nested_out_of_bounds :
    draw_match "aaaaaaaaaaaaaa"
      [(0, 14), (1, 13), (2, 12), (3, 11), (4, 10), (5, 9), (6, 8)] 0 0 = none := by
  decide

lemma draw_match_aux_isSome (hay : String) (col row : Nat)
    (cap : List (Nat × Nat)) (stack : List Nat)
    (h : ∀ l ∈ draw_match_layers_aux stack cap, l < 6) :
    (draw_match_aux hay col row stack cap).isSome := by
  induction cap generalizing stack with
  | nil => simp [draw_match_aux]
  | cons p rest ih =>
      obtain ⟨s, e⟩ := p
      have hl : (e :: popClosed s stack).length - 1 < 6 :=
        h _ (by rw [draw_match_layers_aux]; exact List.mem_cons_self _ _)
      obtain ⟨c, hc⟩ := LAYER_COLORS_getElem?_isSome _ hl
      have hrest := ih (e :: popClosed s stack)
        (fun l hl' => h l (by rw [draw_match_layers_aux]; exact List.mem_cons_of_mem _ hl'))
      obtain ⟨⟨instrs, infos, maxRest⟩, hres⟩ := Option.isSome_iff_exists.mp hrest
      rw [draw_match_aux]
      simp only [List.get?_eq_getElem?, hc, hres]
      rfl

/-- C2 amended: the layer value assigned to each span indexes the fixed
6-entry color table directly, with no clamping or cycling, so the indexing
stays within bounds exactly for capture lists all of whose assigned layers are
below 6: for every such capture list `draw_match` succeeds, while a list that
keeps seven spans open (layer 6, see the counterexample) indexes out of
bounds. -/
theorem draw_match_in_bounds (hay : String) (cap : List (Nat × Nat)) (col row : Nat)
    (h : ∀ l ∈ draw_match_layers cap, l < 6) :
    (draw_match hay cap col row).isSome :=
  draw_match_aux_isSome hay col row cap [] h

/-- Witness for the amended C2 at a nested two-span capture list. -/
theorem draw_match_in_bounds_witness :
    (draw_match "abc" [(0, 3), (1, 2)] 0 0).isSome :=
  draw_match_in_bounds "abc" [(0, 3), (1, 2)] 0 0 (by decide)

/-! ## C4 -/

lemma alookup_updateKey_self {B : Type} (l : List (String × B)) (k : String) (v w : B)
    (h : alookup l k = some w) : alookup (updateKey k v l) k = some v := by
  induction l with
  | nil => simp [alookup] at h
  | cons p rest ih =>
      obtain ⟨k1, v1⟩ := p
      by_cases hk : k1 = k
      · subst hk
        simp [alookup, updateKey]
      · rw [alookup, if_neg hk] at h
        rw [updateKey, if_neg hk, alookup, if_neg hk]
        exact ih h

lemma alookup_updateKey_ne {B : Type} (l : List (String × B)) (k k' : String) (v : B)
    (h : k' ≠ k) : alookup (updateKey k v l) k' = alookup l k' := by
  induction l with
  | nil => simp [updateKey]
  | cons p rest ih =>
      obtain ⟨k1, v1⟩ := p
      by_cases hk : k1 = k
      · subst hk
        rw [updateKey, if_pos rfl, alookup, alookup, if_neg (fun hh => h hh.symm),
          if_neg (fun hh => h hh.symm)]
      · rw [updateKey, if_neg hk, alookup, alookup]
        by_cases hk' : k1 = k'
        · rw [if_pos hk', if_pos hk']
        · rw [if_neg hk', if_neg hk', ih]

lemma alookup_cons_ne {B : Type} (l : List (String × B)) (k k' : String) (v : B)
    (h : k ≠ k') : alookup ((k, v) :: l) k' = alookup l k' := by
  rw [alookup, if_neg h]

/-- C4: the match cache computes each `(pattern, haystack)` pair at most once:
after one `get_or_init` call, calling again with the same pattern and haystack
returns the same result without running `Regex::new` or the match engine and
leaves the cache unchanged; moreover no call ever removes or replaces a stored
capture-list entry or a stored compile error. -/
theorem cache_get_or_init_memoizes {Err : Type} (compile : String → Except Err Unit)
    (capturesOf : String → String → List CapList) (c : Cache Err) (re hay : String) :
    ((Cache.get_or_init compile capturesOf
        (Cache.get_or_init compile capturesOf c re hay).cache re hay).result =
      (Cache.get_or_init compile capturesOf c re hay).result
    ∧ (Cache.get_or_init compile capturesOf
        (Cache.get_or_init compile capturesOf c re hay).cache re hay).cache =
      (Cache.get_or_init compile capturesOf c re hay).cache
    ∧ (Cache.get_or_init compile capturesOf
        (Cache.get_or_init compile capturesOf c re hay).cache re hay).compiled = false
    ∧ (Cache.get_or_init compile capturesOf
        (Cache.get_or_init compile capturesOf c re hay).cache re hay).matched = false)
    ∧ (∀ re' hay' caps, cachedCaps c re' hay' = some caps →
        cachedCaps (Cache.get_or_init compile capturesOf c re hay).cache re' hay' = some caps)
    ∧ (∀ re' err, cachedError c re' = some err →
        cachedError (Cache.get_or_init compile capturesOf c re hay).cache re' = some err) := by
  refine ⟨?_, ?_, ?_⟩
  · rcases houter : alookup c re with _ | entry
    · rcases hcomp : compile re with err | u
      · simp [Cache.get_or_init, houter, hcomp, alookup]
      · simp [Cache.get_or_init, houter, hcomp, alookup]
    · rcases entry with err | inner
      · simp [Cache.get_or_init, houter]
      · rcases hinner : alookup inner hay with _ | caps0
        · have hup := alookup_updateKey_self c re
            (Except.ok ((hay, capturesOf re hay) :: inner)) (Except.ok inner) houter
          simp [Cache.get_or_init, houter, hinner, hup, alookup]
        · simp [Cache.get_or_init, houter, hinner]
  · intro re' hay' caps hcaps
    rcases houter : alookup c re with _ | entry
    · have hne : re ≠ re' := by
        intro hh
        subst hh
        simp [cachedCaps, houter] at hcaps
      rcases hcomp : compile re with err | u
      · simp only [Cache.get_or_init, houter, hcomp]
        simp only [cachedCaps, alookup_cons_ne _ _ _ _ hne]
        simpa [cachedCaps] using hcaps
      · simp only [Cache.get_or_init, houter, hcomp]
        simp only [cachedCaps, alookup_cons_ne _ _ _ _ hne]
        simpa [cachedCaps] using hcaps
    · rcases entry with err | inner
      · simpa [Cache.get_or_init, houter] using hcaps
      · rcases hinner : alookup inner hay with _ | caps0
        · simp only [Cache.get_or_init, houter, hinner]
          by_cases hne : re' = re
          · subst hne
            simp only [cachedCaps, houter] at hcaps
            have hhay : hay ≠ hay' := by
              intro hh
              subst hh
              simp [hinner] at hcaps
            have hup := alookup_updateKey_self c re'
              (Except.ok ((hay, capturesOf re' hay) :: inner)) (Except.ok inner) houter
            simp only [cachedCaps, hup, alookup_cons_ne _ _ _ _ hhay]
            exact hcaps
          · simp only [cachedCaps, alookup_updateKey_ne c re re' _ hne]
            simpa [cachedCaps] using hcaps
        · simpa [Cache.get_or_init, houter, hinner] using hcaps
  · intro re' err' herr
    rcases houter : alookup c re with _ | entry
    · have hne : re ≠ re' := by
        intro hh
        subst hh
        simp [cachedError, houter] at herr
      rcases hcomp : compile re with err | u
      · simp only [Cache.get_or_init, houter, hcomp]
        simp only [cachedError, alookup_cons_ne _ _ _ _ hne]
        simpa [cachedError] using herr
      · simp only [Cache.get_or_init, houter, hcomp]
        simp only [cachedError, alookup_cons_ne _ _ _ _ hne]
        simpa [cachedError] using herr
    · rcases entry with err | inner
      · simpa [Cache.get_or_init, houter] using herr
      · rcases hinner : alookup inner hay with _ | caps0
        · simp only [Cache.get_or_init, houter, hinner]
          by_cases hne : re' = re
          · subst hne
            simp [cachedError, houter] at herr
          · simp only [cachedError, alookup_updateKey_ne c re re' _ hne]
            simpa [cachedError] using herr
        · simpa [Cache.get_or_init, houter, hinner] using herr


/-- Witness for C4: a fresh pattern on an empty cache, queried twice. -/
theorem cache_get_or_init_memoizes_witness :
    ((Cache.get_or_init (fun _ => Except.ok ()) (fun _ _ => [[(0, 1)]])
        (Cache.get_or_init (fun _ => Except.ok ()) (fun _ _ => [[(0, 1)]])
          ([] : Cache String) "a" "b").cache "a" "b").result =
      (Cache.get_or_init (fun _ => Except.ok ()) (fun _ _ => [[(0, 1)]])
        ([] : Cache String) "a" "b").result
    ∧ (Cache.get_or_init (fun _ => Except.ok ()) (fun _ _ => [[(0, 1)]])
        (Cache.get_or_init (fun _ => Except.ok ()) (fun _ _ => [[(0, 1)]])
          ([] : Cache String) "a" "b").cache "a" "b").cache =
      (Cache.get_or_init (fun _ => Except.ok ()) (fun _ _ => [[(0, 1)]])
        ([] : Cache String) "a" "b").cache
    ∧ (Cache.get_or_init (fun _ => Except.ok ()) (fun _ _ => [[(0, 1)]])
        (Cache.get_or_init (fun _ => Except.ok ()) (fun _ _ => [[(0, 1)]])
          ([] : Cache String) "a" "b").cache "a" "b").compiled = false
    ∧ (Cache.get_or_init (fun _ => Except.ok ()) (fun _ _ => [[(0, 1)]])
        (Cache.get_or_init (fun _ => Except.ok ()) (fun _ _ => [[(0, 1)]])
          ([] : Cache String) "a" "b").cache "a" "b").matched = false) :=
  (cache_get_or_init_memoizes (fun _ => Except.ok ()) (fun _ _ => [[(0, 1)]])
    ([] : Cache String) "a" "b").1

/-! ## C5 -/

lemma stackMin_eq_none (s : List HighlightGroup) (h : stackMin s = none) : s = [] := by
  cases s with
  | nil => rfl
  | cons a rest =>
      rw [stackMin] at h
      rcases hrest : stackMin rest with _ | m <;> simp [hrest] at h

lemma stackMin_spec (s : List HighlightGroup) (g : HighlightGroup)
    (h : stackMin s = some g) : g ∈ s ∧ ∀ g' ∈ s, g.rank ≤ g'.rank := by
  induction s generalizing g with
  | nil => simp [stackMin] at h
  | cons a rest ih =>
      rw [stackMin] at h
      rcases hrest : stackMin rest with _ | m
      · rw [hrest] at h
        obtain rfl : a = g := by simpa using h
        obtain rfl : rest = [] := stackMin_eq_none rest hrest
        simp
      · rw [hrest] at h
        obtain ⟨hmem, hmin⟩ := ih m hrest
        by_cases hr : a.rank ≤ m.rank
        · obtain rfl : a = g := by simpa [hr] using h
          refine ⟨by simp, ?_⟩
          intro g' hg'
          rcases List.mem_cons.mp hg' with rfl | hg'
          · exact le_refl _
          · exact le_trans hr (hmin g' hg')
        · obtain rfl : m = g := by simpa [hr] using h
          refine ⟨List.mem_cons_of_mem _ hmem, ?_⟩
          intro g' hg'
          rcases List.mem_cons.mp hg' with rfl | hg'
          · exact le_of_lt (lt_of_not_le hr)
          · exact hmin g' hg'

lemma nextAux_emits (iter : List HighlightEvent) :
    ∀ pos limit stack c w', nextAux pos limit stack iter = some (c, w') →
      c = ((stackMin w'.stack).map HighlightGroup.color).getD Color.Reset := by
  induction iter with
  | nil =>
      intro pos limit stack c w' h
      rw [show nextAux pos limit stack [] =
          (if pos < limit then
            some (((stackMin stack).map HighlightGroup.color).getD Color.Reset,
              { iter := [], pos := pos + 1, limit := limit, stack := stack })
          else none) from rfl] at h
      by_cases hpos : pos < limit
      · rw [if_pos hpos, Option.some.injEq, Prod.mk.injEq] at h
        obtain ⟨rfl, rfl⟩ := h
        rfl
      · rw [if_neg hpos] at h
        exact Option.noConfusion h
  | cons ev rest ih =>
      intro pos limit stack c w' h
      rw [show nextAux pos limit stack (ev :: rest) =
          (if pos < limit then
            some (((stackMin stack).map HighlightGroup.color).getD Color.Reset,
              { iter := ev :: rest, pos := pos + 1, limit := limit, stack := stack })
          else
            match ev with
            | .highlightStart g => nextAux pos limit (stack ++ [g]) rest
            | .source rangeEnd => nextAux pos rangeEnd stack rest
            | .highlightEnd => nextAux pos limit stack.dropLast rest) from rfl] at h
      by_cases hpos : pos < limit
      · rw [if_pos hpos, Option.some.injEq, Prod.mk.injEq] at h
        obtain ⟨rfl, rfl⟩ := h
        rfl
      · rw [if_neg hpos] at h
        cases ev with
        | highlightStart g => exact ih pos limit (stack ++ [g]) c w' h
        | source rangeEnd => exact ih pos rangeEnd stack c w' h
        | highlightEnd => exact ih pos limit stack.dropLast c w' h

/-- C5: whenever the Highlight Materializer emits a color for a byte position,
that color is the color of the minimum-rank (highest-priority, in the fixed
order Flags < Anchors < Quantifiers < CharacterClass < Operator < Escape <
Group) category on the open-category stack, and the reset color when the
stack is empty. -/
theorem next_color_is_top_priority (w : HighlightEventWrapper) (c : Color)
    (w' : HighlightEventWrapper) (h : w.next = some (c, w')) :
    (w'.stack = [] → c = Color.Reset) ∧
    (w'.stack ≠ [] →
      ∃ g, g ∈ w'.stack ∧ (∀ g' ∈ w'.stack, g.rank ≤ g'.rank) ∧ c = g.color) := by
  have hc := nextAux_emits w.iter w.pos w.limit w.stack c w' h
  constructor
  · intro hnil
    rw [hnil] at hc
    simpa [stackMin] using hc
  · intro hne
    rcases hmin : stackMin w'.stack with _ | g
    · exact absurd (stackMin_eq_none _ hmin) hne
    · obtain ⟨hmem, hall⟩ := stackMin_spec _ g hmin
      refine ⟨g, hmem, hall, ?_⟩
      rw [hc, hmin]
      rfl

/-- Witness for C5: two open categories, Operator and Flags; the emitted
color is Flags' blue, the smaller rank. -/
theorem next_color_is_top_priority_witness :
    ((HighlightEventWrapper.mk [] 1 1
        [HighlightGroup.Operator, HighlightGroup.Flags]).stack = [] →
      Color.Blue = Color.Reset)
    ∧ ((HighlightEventWrapper.mk [] 1 1
        [HighlightGroup.Operator, HighlightGroup.Flags]).stack ≠ [] →
      ∃ g, g ∈ (HighlightEventWrapper.mk [] 1 1
          [HighlightGroup.Operator, HighlightGroup.Flags]).stack ∧
        (∀ g' ∈ (HighlightEventWrapper.mk [] 1 1
            [HighlightGroup.Operator, HighlightGroup.Flags]).stack,
          g.rank ≤ g'.rank) ∧ Color.Blue = g.color) :=
  next_color_is_top_priority
    ⟨[], 0, 1, [HighlightGroup.Operator, HighlightGroup.Flags]⟩ Color.Blue
    ⟨[], 1, 1, [HighlightGroup.Operator, HighlightGroup.Flags]⟩ (by decide)

/-! ## C7 -/

lemma take_getLast?_eq (l : List Color) (n : Nat) (h1 : 0 < n) (h2 : n ≤ l.length) :
    (l.take n).getLast? = l.get? (n - 1) := by
  rw [List.getLast?_eq_getElem?, List.get?_eq_getElem?]
  have hlen : (l.take n).length = n := by
    rw [List.length_take]
    omega
  rw [hlen, List.getElem?_take, if_pos (by omega)]

lemma sample_eq_spec_aux (lens : List Nat) :
    ∀ (colors : List Color) (off : Nat), (∀ n ∈ lens, 0 < n) →
      off + lens.sum ≤ colors.length →
      sample_query_colors (colors.drop off) lens = spec_sample colors off lens := by
  induction lens with
  | nil => intro colors off h1 h2; rfl
  | cons n rest ih =>
      intro colors off h1 h2
      rw [List.sum_cons] at h2
      have hn : 0 < n := h1 n (List.mem_cons_self _ _)
      have hle : n ≤ (colors.drop off).length := by
        rw [List.length_drop]
        omega
      rw [sample_query_colors, spec_sample]
      congr 1
      · rw [take_getLast?_eq _ n hn hle, List.get?_eq_getElem?, List.getElem?_drop,
          lastByteColor, List.get?_eq_getElem?]
        congr 2
        omega
      · rw [List.drop_drop]
        exact ih colors (off + n) (fun m hm => h1 m (List.mem_cons_of_mem _ hm)) (by omega)

/-- C7: when the materializer's per-byte color sequence covers the pattern's
bytes, the per-character syntax color of `draw_regex_query` consumes exactly
`len_utf8` colors per character and is the last byte-level color within that
character's byte span. -/
theorem query_color_samples_last_byte (colors : List Color) (lens : List Nat)
    (h1 : ∀ n ∈ lens, 0 < n) (h2 : lens.sum ≤ colors.length) :
    sample_query_colors colors lens = spec_sample colors 0 lens := by
  have h := sample_eq_spec_aux lens colors 0 h1 (by omega)
  simpa using h

/-- Witness for C7: a one-byte character followed by a two-byte character over
a three-color sequence. -/
theorem query_color_samples_last_byte_witness :
    sample_query_colors [Color.Blue, Color.Green, Color.Yellow] [1, 2] =
      spec_sample [Color.Blue, Color.Green, Color.Yellow] 0 [1, 2] :=
  query_color_samples_last_byte [Color.Blue, Color.Green, Color.Yellow] [1, 2]
    (by decide) (by decide)

/-! ## C8 -/

/-- C8: when tokenization fails to initialize, `draw_regex_query` falls back to
the `Default` wrapper, whose color sequence is immediately exhausted, and the
per-character sampling then yields the reset color for every character of the
pattern, whatever its character widths are; no failure reaches the caller. -/
theorem tokenizer_failure_falls_back_to_reset :
    HighlightEventWrapper.deflt.next = none ∧
    ∀ lens : List Nat,
      sample_query_colors [] lens = List.replicate lens.length Color.Reset := by
  constructor
  · rfl
  · intro lens
    induction lens with
    | nil => rfl
    | cons n rest ih =>
        rw [sample_query_colors]
        simp [ih, List.replicate_succ]

/-! ## C9 -/

lemma draw_error_lines_length (L : List String) :
    ∀ col r, (draw_error_lines col r L).length = L.length := by
  induction L with
  | nil => intro col r; rfl
  | cons line rest ih =>
      intro col r
      rw [draw_error_lines, List.length_cons, ih, List.length_cons]

lemma draw_error_lines_get? (L : List String) :
    ∀ col r i, (draw_error_lines col r L).get? i =
      (L.get? i).map (fun line => Instr.printAt Color.Reset line col (r + i)) := by
  induction L with
  | nil => intro col r i; simp [draw_error_lines]
  | cons line rest ih =>
      intro col r i
      cases i with
      | zero => simp [draw_error_lines]
      | succ j =>
          rw [draw_error_lines, List.get?_cons_succ, List.get?_cons_succ, ih]
          have harith : r + 1 + j = r + (j + 1) := by omega
          simp [harith]

/-- C9: on a compile error from the match cache, the haystack renderer emits
exactly the "ERROR" label at the haystack field's origin followed by the
error's lines on the successive rows — one instruction per line and nothing
else, so no capture-list coloring or connector drawing happens. -/
theorem error_branch_renders_error_block (hay : String) (L : List String)
    (col row : Nat) :
    ∃ instrs, draw_hay hay (Except.error L) col row = some instrs ∧
      instrs.length = L.length + 1 ∧
      instrs.head? = some (Instr.printAt Color.DarkRed "ERROR:" col row) ∧
      ∀ i, i < L.length → instrs.get? (i + 1) =
        (L.get? i).map (fun line => Instr.printAt Color.Reset line col (row + 1 + i)) := by
  refine ⟨draw_error L col row, rfl, ?_, rfl, ?_⟩
  · rw [draw_error, List.length_cons, draw_error_lines_length]
  · intro i hi
    rw [draw_error, List.get?_cons_succ]
    exact draw_error_lines_get? L col (row + 1) i

/-- Witness for C9: a two-line error message at the haystack origin (2, 3). -/
theorem error_branch_renders_error_block_witness :
    ∃ instrs, draw_hay "h" (Except.error ["bad", "pattern"]) 2 3 = some instrs ∧
      instrs.length = 2 + 1 ∧
      instrs.head? = some (Instr.printAt Color.DarkRed "ERROR:" 2 3) ∧
      ∀ i, i < (["bad", "pattern"] : List String).length → instrs.get? (i + 1) =
        ((["bad", "pattern"] : List String).get? i).map
          (fun line => Instr.printAt Color.Reset line 2 (3 + 1 + i)) :=
  error_branch_renders_error_block "h" ["bad", "pattern"] 2 3

/-! ## C10 -/

/-- C10: with the cursor at position 0, `delete_char` leaves the field's text
and cursor unchanged and reports neither a content change nor a cursor
change. -/
theorem delete_char_at_start_noop (i : Input) (h : i.cursor = 0) :
    i.delete_char = (i, { content := false, cursor := false }) := by
  rw [Input.delete_char]
  simp [h, Change.new]

/-- Witness for C10 on the field "ab" with the cursor at 0. -/
theorem delete_char_at_start_noop_witness :
    (Input.mk ['a', 'b'] 0).delete_char =
      (Input.mk ['a', 'b'] 0, { content := false, cursor := false }) :=
  delete_char_at_start_noop (Input.mk ['a', 'b'] 0) rfl

end Replay



